import Mathlib

/-!
Verification development for the proxy-harvester application
(`src/application/mainwindow.py`).  The Python code is shallowly embedded:
strings are lists of characters, Python exceptions become an explicit
`PyError` outcome, Qt models become Lean structures, and the modules of the
repository that are not present under `src/` (`application/proxy.py`,
`application/utils.py`, `application/workers.py`, `application/defaults.py`)
are modelled from the specification, each such definition carrying a doc
comment that starts with "Modelled from the spec".
-/

set_option autoImplicit false

namespace ProxyHarvester

universe u v

/-- Python exception kinds that the embedded code can raise. -/
inductive PyError where
  | valueError
  | typeError
  deriving DecidableEq

/-- Outcome of running a Python slot/method: normal return or a propagated
exception. -/
inductive Outcome where
  | ok
  | raised (e : PyError)
  deriving DecidableEq

/-- Python `str.split(sep)` for a one-character separator `d`: splits at every
occurrence of `d`, keeping empty fields; the empty string yields `[""]`. -/
def pyStrSplit (d : Char) : List Char → List (List Char)
  | [] => [[]]
  | c :: cs =>
    if c = d then [] :: pyStrSplit d cs
    else
      match pyStrSplit d cs with
      | [] => [[c]]
      | t :: ts => (c :: t) :: ts

/-- Python `str.strip()`: remove leading and trailing whitespace. -/
def pyStrStrip (l : List Char) : List Char :=
  ((l.dropWhile Char.isWhitespace).reverse.dropWhile Char.isWhitespace).reverse

/-- Value of a nonempty all-digit character list, `none` otherwise. -/
def digitsToNat (l : List Char) : Option Nat :=
  if l = [] then none
  else if l.all Char.isDigit then
    some (l.foldl (fun a c => 10 * a + (c.toNat - 48)) 0)
  else none

/-- Python `int(s)`: strip whitespace, allow one optional sign, then a
nonempty run of decimal digits; anything else raises `ValueError`
(modelled as `none`). -/
def pyInt (s : List Char) : Option Int :=
  match pyStrStrip s with
  | [] => none
  | c :: rest =>
    if c = '-' then (digitsToNat rest).map (fun n => -(n : Int))
    else if c = '+' then (digitsToNat rest).map (fun n => (n : Int))
    else (digitsToNat (c :: rest)).map (fun n => (n : Int))

/-- The decimal digit character for `k < 10`. -/
def digitChar (k : Nat) : Char := Char.ofNat (48 + k)

/-- Decimal rendering of a natural number, fuelled so that it is structurally
recursive; `natToChars` supplies enough fuel. -/
def natToCharsAux : Nat → Nat → List Char
  | 0, _ => []
  | fuel + 1, n =>
    if n < 10 then [digitChar n]
    else natToCharsAux fuel (n / 10) ++ [digitChar (n % 10)]

/-- Python `str(n)` for a natural number `n`. -/
def natToChars (n : Nat) : List Char := natToCharsAux (n + 1) n

/-- The proxy value type.  Modelled from the spec (`application/proxy.py` is
not under `src/`): identity and equality use `(host, port)` only (spec §3),
so only those two fields are carried; the other attributes are mutable
observations stored in the table model, not in the identity set. -/
structure Proxy where
  ip : List Char
  port : Nat
  deriving DecidableEq

/-- Modelled from the spec: the `Proxy(ip, port)` constructor of
`application/proxy.py` (absent from `src/`) raises `ValueError` when the
port is outside `[1, 65535]` (spec §4.1 ParseError conditions). -/
def Proxy.make (ip : List Char) (port : Int) : Option Proxy :=
  if 1 ≤ port ∧ port ≤ 65535 then some ⟨ip, port.toNat⟩ else none

/-- Per-line outcome inside `loadProxiesFromFile` (mainwindow.py:136-148). -/
inductive LineResult where
  | ok (p : Proxy)
  | skipped
  | aborted
  deriving DecidableEq

/-- One iteration of the import loop (mainwindow.py:136-142).  The unpacking
`ip, port = line.strip().split(delimiter)` happens OUTSIDE the
`try`/`except`, so a field count other than two raises an uncaught
`ValueError` (`aborted`); a non-numeric or out-of-range port raises inside
the `try` and is caught (`skipped`). -/
def parseLineResult (d : Char) (line : List Char) : LineResult :=
  match pyStrSplit d (pyStrStrip line) with
  | [ip, port] =>
    match pyInt port with
    | none => .skipped
    | some n =>
      match Proxy.make ip n with
      | none => .skipped
      | some p => .ok p
  | _ => .aborted

/-- The successfully parsed proxy of a line, if any. -/
def parseLine (d : Char) (line : List Char) : Option Proxy :=
  match parseLineResult d line with
  | .ok p => some p
  | _ => none

/-- The export rendering of one table row, `"{}:{}".format(ip, port)`
(mainwindow.py:321). -/
def formatProxy (p : Proxy) : List Char := p.ip ++ ':' :: natToChars p.port

/-- Result of `loadProxiesFromFile`: the proxy set after the call (the Python
code mutates `self._proxies` in place, so partial additions survive an
abort), the number of newly added proxies, and the uncaught exception if
the whole import aborted. -/
structure LoadResult where
  proxies : List Proxy
  added : Nat
  error : Option PyError
  deriving DecidableEq

/-- Membership-guarded insertion used by the import loop
(mainwindow.py:143-145) and by the scrape-result handler
(mainwindow.py:465-467): add only when no equal `(host, port)` entry is
present. -/
def addProxy (s : List Proxy) (p : Proxy) : List Proxy :=
  if p ∈ s then s else s ++ [p]

/-- The line loop of `loadProxiesFromFile` (mainwindow.py:136-148). -/
def loadLoop (d : Char) (s : List Proxy) (added : Nat) :
    List (List Char) → LoadResult
  | [] => ⟨s, added, none⟩
  | line :: rest =>
    match parseLineResult d line with
    | .aborted => ⟨s, added, some .valueError⟩
    | .skipped => loadLoop d s added rest
    | .ok p =>
      if p ∈ s then loadLoop d s added rest
      else loadLoop d (s ++ [p]) (added + 1) rest

/-- `loadProxiesFromFile` (mainwindow.py:122-152) on the list of stripped
input lines, starting from the current proxy set.  File-system access and
`splitlines` are outside the model: the function receives the file's lines.
Its Python return value is the updated set when `added > 0` and no exception
escaped, and `False` otherwise; callers test truthiness, which is encoded by
inspecting `added` and `error`. -/
def loadProxiesFromFile (d : Char) (s : List Proxy) (lines : List (List Char)) :
    LoadResult :=
  loadLoop d s 0 lines

/-- Modelled from the spec: `split_list` of `application/utils.py` is not
under `src/`.  Spec §4.2: the partition sizes are `len / n`, with the first
`len % n` partitions receiving one extra item. -/
def splitSizes (len n : Nat) : List Nat :=
  (List.range n).map (fun i => len / n + if i < len % n then 1 else 0)

/-- Cut a list into consecutive chunks of the given sizes. -/
def takeChunks {α : Type u} : List Nat → List α → List (List α)
  | [], _ => []
  | k :: ks, l => l.take k :: takeChunks ks (l.drop k)

/-- Modelled from the spec: `split_list(items, n)` of `application/utils.py`
(absent from `src/`), per spec §4.2 — exactly `n` contiguous sub-sequences
in input order, sizes differing by at most one, the first `len % n` of them
one longer. -/
def split_list {α : Type u} (l : List α) (n : Nat) : List (List α) :=
  takeChunks (splitSizes l.length n) l

theorem takeChunks_length {α : Type u} (ks : List Nat) (l : List α) :
    (takeChunks ks l).length = ks.length := by
  induction ks generalizing l with
  | nil => rfl
  | cons k ks ih => simp [takeChunks, ih]

theorem takeChunks_join {α : Type u} (ks : List Nat) (l : List α) :
    (takeChunks ks l).flatten = l.take ks.sum := by
  induction ks generalizing l with
  | nil => simp [takeChunks]
  | cons k ks ih =>
    simp only [takeChunks, List.flatten_cons, ih, List.sum_cons]
    rw [List.take_add]

theorem list_sum_map_add {α : Type u} (l : List α) (f g : α → Nat) :
    (l.map (fun x => f x + g x)).sum = (l.map f).sum + (l.map g).sum := by
  induction l with
  | nil => rfl
  | cons a l ih => simp only [List.map_cons, List.sum_cons, ih]; omega

theorem list_sum_map_const {α : Type u} (l : List α) (c : Nat) :
    (l.map (fun _ => c)).sum = l.length * c := by
  induction l with
  | nil => simp
  | cons a l ih =>
    simp only [List.map_cons, List.sum_cons, ih, List.length_cons]
    ring

theorem sum_range_indicator (m n : Nat) :
    ((List.range n).map (fun i => if i < m then 1 else 0)).sum = min m n := by
  induction n with
  | zero => simp
  | succ n ih =>
    rw [List.range_succ, List.map_append, List.sum_append, ih]
    by_cases h : n < m <;> simp [h] <;> omega

theorem splitSizes_sum (len n : Nat) (h : 1 ≤ n) :
    (splitSizes len n).sum = len := by
  have hmod : len % n < n := Nat.mod_lt _ h
  simp only [splitSizes]
  rw [list_sum_map_add, list_sum_map_const, sum_range_indicator,
    List.length_range]
  have := Nat.div_add_mod len n
  omega

theorem splitSizes_length (len n : Nat) : (splitSizes len n).length = n := by
  simp [splitSizes]

theorem takeChunks_map_length {α : Type u} (ks : List Nat) (l : List α)
    (h : ks.sum ≤ l.length) :
    (takeChunks ks l).map List.length = ks := by
  induction ks generalizing l with
  | nil => rfl
  | cons k ks ih =>
    simp only [List.sum_cons] at h
    have hk : k ≤ l.length := by omega
    simp only [takeChunks, List.map_cons, List.length_take]
    rw [ih]
    · congr 1
      omega
    · rw [List.length_drop]
      omega

theorem split_list_join {α : Type u} (l : List α) (n : Nat) (h : 1 ≤ n) :
    (split_list l n).flatten = l := by
  rw [split_list, takeChunks_join, splitSizes_sum _ _ h, List.take_length]

theorem split_list_length {α : Type u} (l : List α) (n : Nat) :
    (split_list l n).length = n := by
  rw [split_list, takeChunks_length, splitSizes_length]

theorem split_list_map_length {α : Type u} (l : List α) (n : Nat) (h : 1 ≤ n) :
    (split_list l n).map List.length = splitSizes l.length n := by
  rw [split_list, takeChunks_map_length]
  rw [splitSizes_sum _ _ h]

theorem splitSizes_mem_bounds {len n x : Nat} (hx : x ∈ splitSizes len n) :
    len / n ≤ x ∧ x ≤ len / n + 1 := by
  simp only [splitSizes, List.mem_map] at hx
  obtain ⟨i, _, rfl⟩ := hx
  by_cases h : i < len % n <;> simp [h]

/-- C5: for every input sequence and every `n ≥ 1`, `split_list` returns
exactly `n` sub-sequences; concatenating them in order gives back the input
(so every item appears exactly once, relative order preserved); the sizes
follow the deterministic rule — `len / n` each, the first `len % n`
partitions one longer — and any two partition sizes differ by at most 1. -/
theorem claim_C5_partitioner_contract {α : Type u} (l : List α) (n : Nat)
    (h : 1 ≤ n) :
    (split_list l n).length = n ∧
    (split_list l n).flatten = l ∧
    (split_list l n).map List.length = splitSizes l.length n ∧
    ∀ a ∈ split_list l n, ∀ b ∈ split_list l n,
      a.length ≤ b.length + 1 := by
  refine ⟨split_list_length l n, split_list_join l n h,
    split_list_map_length l n h, ?_⟩
  intro a ha b hb
  have hA : a.length ∈ splitSizes l.length n := by
    rw [← split_list_map_length l n h]
    exact List.mem_map_of_mem _ ha
  have hB : b.length ∈ splitSizes l.length n := by
    rw [← split_list_map_length l n h]
    exact List.mem_map_of_mem _ hb
  have := splitSizes_mem_bounds hA
  have := splitSizes_mem_bounds hB
  omega

/-- Witness for C5 at the spec's own example shape: 3 items over 2 workers. -/
theorem claim_C5_partitioner_contract_witness :
    1 ≤ 2 ∧
    ((split_list ([10, 20, 30] : List Nat) 2).length = 2 ∧
      (split_list ([10, 20, 30] : List Nat) 2).flatten = [10, 20, 30] ∧
      (split_list ([10, 20, 30] : List Nat) 2).map List.length
        = splitSizes 3 2 ∧
      ∀ a ∈ split_list ([10, 20, 30] : List Nat) 2,
        ∀ b ∈ split_list ([10, 20, 30] : List Nat) 2,
          a.length ≤ b.length + 1) :=
  ⟨by decide, claim_C5_partitioner_contract [10, 20, 30] 2 (by decide)⟩

/-- C2 evidence: the import loop aborts on a wrong field count instead of
skipping the line.  The first line below is the private-proxy format that the
`importProxies` docstring itself documents (`ip:port:username:password`,
mainwindow.py:295-296); unpacking it into two names at mainwindow.py:137
raises an uncaught `ValueError`, so the well-formed second line is never
imported.  Only the conditions raised inside the `try` (non-numeric port,
out-of-range port) are skipped as the spec claims. -/
theorem claim_C2_malformed_line_aborts :
    (loadProxiesFromFile ':' []
      ["1.1.1.1:80:user:pass".toList, "2.2.2.2:80".toList]).error
        = some PyError.valueError ∧
    (loadProxiesFromFile ':' []
      ["1.1.1.1:80:user:pass".toList, "2.2.2.2:80".toList]).proxies = [] ∧
    parseLineResult ':' "1.2.3.4".toList = LineResult.aborted ∧
    parseLineResult ':' "1.2.3.4:ab".toList = LineResult.skipped ∧
    parseLineResult ':' "1.2.3.4:70000".toList = LineResult.skipped := by
  decide

/-- The `(host, port)` identity key of a proxy (spec §3). -/
def proxyKey (p : Proxy) : List Char × Nat := (p.ip, p.port)

theorem proxyKey_injective {p q : Proxy} (h : proxyKey p = proxyKey q) :
    p = q := by
  cases p
  cases q
  simpa [proxyKey] using h

/-- States of `self._proxies` reachable through the mutations in
mainwindow.py: created empty (line 52) or cleared (line 348); insertion via
the membership-guarded add of the import loop (lines 143-145) and of the
scrape-result handler (lines 465-467); removal via `removeSelected`
(line 344). -/
inductive ReachableProxySet : List Proxy → Prop where
  | empty : ReachableProxySet []
  | add (s : List Proxy) (p : Proxy) :
      ReachableProxySet s → ReachableProxySet (addProxy s p)
  | remove (s : List Proxy) (p : Proxy) :
      ReachableProxySet s → ReachableProxySet (s.erase p)

/-- C6: every reachable proxy set is free of duplicate `(host, port)` keys,
and adding an already-present pair is the identity (in particular the size
stays constant). -/
theorem claim_C6_dedup_invariant (s : List Proxy) (h : ReachableProxySet s) :
    (s.map proxyKey).Nodup ∧
    ∀ p ∈ s, addProxy s p = s ∧ (addProxy s p).length = s.length := by
  refine ⟨?_, ?_⟩
  · induction h with
    | empty => simp
    | add s p _ ih =>
      by_cases hp : p ∈ s
      · simpa [addProxy, hp] using ih
      · rw [addProxy, if_neg hp, List.map_append, List.nodup_append]
        refine ⟨ih, by simp, ?_⟩
        intro x hx hx'
        simp only [List.map_cons, List.map_nil, List.mem_singleton] at hx'
        subst hx'
        obtain ⟨q, hq, hqk⟩ := List.mem_map.mp hx
        exact hp (proxyKey_injective hqk ▸ hq)
    | remove s p _ ih =>
      exact ih.sublist (List.Sublist.map _ (List.erase_sublist _ _))
  · intro p hp
    simp [addProxy, hp]

/-- Witness for C6 at a concrete reachable set built by adding the same
`(host, port)` twice. -/
theorem claim_C6_dedup_invariant_witness :
    ReachableProxySet
      (addProxy (addProxy [] ⟨"1.2.3.4".toList, 80⟩) ⟨"1.2.3.4".toList, 80⟩) ∧
    (((addProxy (addProxy [] ⟨"1.2.3.4".toList, 80⟩)
        ⟨"1.2.3.4".toList, 80⟩).map proxyKey).Nodup ∧
      ∀ p ∈ addProxy (addProxy [] ⟨"1.2.3.4".toList, 80⟩)
          ⟨"1.2.3.4".toList, 80⟩,
        addProxy (addProxy (addProxy [] ⟨"1.2.3.4".toList, 80⟩)
            ⟨"1.2.3.4".toList, 80⟩) p
          = addProxy (addProxy [] ⟨"1.2.3.4".toList, 80⟩)
              ⟨"1.2.3.4".toList, 80⟩ ∧
        (addProxy (addProxy (addProxy [] ⟨"1.2.3.4".toList, 80⟩)
            ⟨"1.2.3.4".toList, 80⟩) p).length
          = (addProxy (addProxy [] ⟨"1.2.3.4".toList, 80⟩)
              ⟨"1.2.3.4".toList, 80⟩).length) :=
  ⟨.add _ _ (.add _ _ .empty),
    claim_C6_dedup_invariant _ (.add _ _ (.add _ _ .empty))⟩

/-- The progress fields of the main window (mainwindow.py:53-54). -/
structure ProgressState where
  total : Nat
  done : Nat
  deriving DecidableEq

/-- Batch kinds: the `action` tag carried by worker events (spec §6). -/
inductive BatchAction where
  | scrape
  | check
  deriving DecidableEq

/-- A result event, as far as progress is concerned: its action tag and an
outcome flag (whether the item failed). -/
structure ResultEvent where
  action : BatchAction
  failed : Bool
  deriving DecidableEq

/-- Progress part of the `onResult` slot (mainwindow.py:456-472): for any
result event whose action is "check" or "scrape", `_progressDone` is
incremented by one, whatever the item's outcome. -/
def onResultProgress (st : ProgressState) (e : ResultEvent) : ProgressState :=
  if e.action = .check ∨ e.action = .scrape then ⟨st.total, st.done + 1⟩
  else st

/-- Modelled from the spec: a worker (`application/workers.py` is absent from
`src/`) emits exactly one result event per work item it processes, and
cancellation stops it only at an item boundary, so a worker that processed
`k` items of its queue emitted exactly `k` result events (spec §4.3, §4.4). -/
def workerResultEvents {α : Type u} (a : BatchAction) (q : List α) (k : Nat) :
    List ResultEvent :=
  (q.take k).map (fun _ => ⟨a, false⟩)

/-- All result events of a batch whose partitions are `qs` and whose workers
processed `ks` items respectively (any interleaving gives the same counts). -/
def batchResultEvents {α : Type u} (a : BatchAction) (qs : List (List α))
    (ks : List Nat) : List ResultEvent :=
  ((qs.zip ks).map (fun x => workerResultEvents a x.1 x.2)).flatten

/-- Progress state after a batch over `items` split across `n` workers that
processed `ks` items respectively: `_progressTotal` is the item count and
`_progressDone` zero at batch start (mainwindow.py:378-379, 418-419), then
`onResult` consumes every result event. -/
def runBatchProgress {α : Type u} (a : BatchAction) (items : List α) (n : Nat)
    (ks : List Nat) : ProgressState :=
  (batchResultEvents a (split_list items n) ks).foldl onResultProgress
    ⟨items.length, 0⟩

theorem onResultProgress_eq (st : ProgressState) (e : ResultEvent) :
    onResultProgress st e = ⟨st.total, st.done + 1⟩ := by
  cases e with
  | mk a f => cases a <;> simp [onResultProgress]

theorem foldl_onResultProgress (es : List ResultEvent) (t d : Nat) :
    es.foldl onResultProgress ⟨t, d⟩ = ⟨t, d + es.length⟩ := by
  induction es generalizing d with
  | nil => rfl
  | cons e es ih =>
    have harith : d + 1 + es.length = d + (es.length + 1) := by omega
    rw [List.foldl_cons, onResultProgress_eq, ih, List.length_cons, harith]

theorem batchResultEvents_length {α : Type u} (a : BatchAction)
    (qs : List (List α)) (ks : List Nat)
    (h : List.Forall₂ (· ≤ ·) ks (qs.map List.length)) :
    (batchResultEvents a qs ks).length = ks.sum := by
  induction qs generalizing ks with
  | nil =>
    cases h
    rfl
  | cons q qs ih =>
    rw [List.map_cons] at h
    cases h with
    | cons hk hrest =>
      rename_i k ks'
      have hrec := ih ks' hrest
      have hgoal : (batchResultEvents a (q :: qs) (k :: ks')).length
          = (workerResultEvents a q k).length
            + (batchResultEvents a qs ks').length := by
        simp [batchResultEvents, List.zip_cons_cons]
      have hwk : (workerResultEvents a q k).length = k := by
        simp only [workerResultEvents, List.length_map, List.length_take]
        omega
      rw [hgoal, hrec, hwk, List.sum_cons]

/-- C7: `total` is fixed at batch start to the number of work items, `done`
starts at zero and grows by exactly one per result event regardless of
outcome, so after a batch in which worker `i` processed `ks i` items of its
partition, `done = sum ks ≤ total`, with equality when no cancellation
stopped any worker short of its whole partition. -/
theorem claim_C7_progress_invariant {α : Type u} (a : BatchAction)
    (items : List α) (n : Nat) (ks : List Nat) (hn : 1 ≤ n)
    (hks : List.Forall₂ (· ≤ ·) ks ((split_list items n).map List.length)) :
    (runBatchProgress a items n ks).total = items.length ∧
    (runBatchProgress a items n ks).done = ks.sum ∧
    (runBatchProgress a items n ks).done
      ≤ (runBatchProgress a items n ks).total ∧
    (ks = (split_list items n).map List.length →
      (runBatchProgress a items n ks).done = items.length) := by
  have hlen := batchResultEvents_length a (split_list items n) ks hks
  have hrun : runBatchProgress a items n ks = ⟨items.length, ks.sum⟩ := by
    rw [runBatchProgress, foldl_onResultProgress, hlen, Nat.zero_add]
  have hsumle : ks.sum ≤ ((split_list items n).map List.length).sum :=
    List.Forall₂.sum_le_sum hks
  have hfull : ((split_list items n).map List.length).sum = items.length := by
    rw [split_list_map_length items n hn, splitSizes_sum _ _ hn]
  refine ⟨by rw [hrun], by rw [hrun], ?_, ?_⟩
  · rw [hrun]
    simpa [hfull] using hsumle
  · intro hk
    rw [hrun, hk, hfull]

/-- Witness for C7: three items across two workers, each worker cancelled
after one item. -/
theorem claim_C7_progress_invariant_witness :
    (1 ≤ 2 ∧
      List.Forall₂ (· ≤ ·) [1, 1]
        ((split_list ([10, 20, 30] : List Nat) 2).map List.length)) ∧
    ((runBatchProgress .check ([10, 20, 30] : List Nat) 2 [1, 1]).total = 3 ∧
      (runBatchProgress .check ([10, 20, 30] : List Nat) 2 [1, 1]).done
        = List.sum [1, 1] ∧
      (runBatchProgress .check ([10, 20, 30] : List Nat) 2 [1, 1]).done
        ≤ (runBatchProgress .check ([10, 20, 30] : List Nat) 2 [1, 1]).total ∧
      ([1, 1] = (split_list ([10, 20, 30] : List Nat) 2).map List.length →
        (runBatchProgress .check ([10, 20, 30] : List Nat) 2 [1, 1]).done
          = 3)) :=
  ⟨⟨by decide,
      List.Forall₂.cons (by decide) (List.Forall₂.cons (by decide)
        List.Forall₂.nil)⟩,
    claim_C7_progress_invariant .check [10, 20, 30] 2 [1, 1] (by decide)
      (List.Forall₂.cons (by decide) (List.Forall₂.cons (by decide)
        List.Forall₂.nil))⟩

/-- One row of the proxies table model (columns at mainwindow.py:40-50);
every cell holds a string.  `pw` is the "pass" column and `ptype` the
"type" column. -/
structure TableRow where
  ip : List Char
  port : List Char
  user : List Char
  pw : List Char
  ptype : List Char
  anon : List Char
  speed : List Char
  status : List Char
  deriving DecidableEq

/-- Modelled from the spec: the default thread count of
`application/defaults.py` (absent from `src/`); its concrete value is
immaterial to every claim. -/
def THREADS : Nat := 4

/-- Modelled from the spec: the default request timeout of
`application/defaults.py` (absent from `src/`); its concrete value is
immaterial — the claims only concern whether configured settings reach the
workers. -/
def TIMEOUT : Nat := 10

/-- Modelled from the spec: the default inter-request delay of
`application/defaults.py` (absent from `src/`); its concrete value is
immaterial. -/
def DELAY : Nat := 1

/-- Modelled from the spec: the recent-files bound of `application/conf.py`
(absent from `src/`, and recent-file bookkeeping is out of the spec's
scope); the value is immaterial to every claim. -/
def MAX_RECENT_FILES : Nat := 5

/-- The mutable state of the main window that the embedded slots touch
(mainwindow.py:34-60 and the Qt widgets they drive). -/
structure AppState where
  proxies : List Proxy
  table : List TableRow
  currentDir : List Char
  recentFiles : List (List Char)
  progressTotal : Nat
  progressDone : Nat
  progressBar : Nat
  threadsCount : Nat
  requestTimeout : Nat
  requestsDelay : Nat
  realIP : Option (List Char)
  scrapeEnabled : Bool
  checkEnabled : Bool
  stopEnabled : Bool
  statusMsg : List Char
  deriving DecidableEq

/-- The window state right after `__init__` (mainwindow.py:52-60): empty
proxy set and table, default configuration. -/
def initialState : AppState where
  proxies := []
  table := []
  currentDir := []
  recentFiles := []
  progressTotal := 0
  progressDone := 0
  progressBar := 0
  threadsCount := THREADS
  requestTimeout := TIMEOUT
  requestsDelay := DELAY
  realIP := none
  scrapeEnabled := true
  checkEnabled := true
  stopEnabled := false
  statusMsg := "Ready.".toList

/-- The three core-relevant settings stored in `settings.ini`
(mainwindow.py:225-227). -/
structure StoredSettings where
  threadsCount : Nat
  requestTimeout : Nat
  requestsDelay : Nat
  deriving DecidableEq

/-- `loadSettings` (mainwindow.py:210-218), restricted to the fields the
core consumes: the stored values land in `_threadsCount`,
`_requestTimeout` and `_requestsDelay`. -/
def loadSettings (st : AppState) (settings : StoredSettings) : AppState :=
  { st with
    threadsCount := settings.threadsCount
    requestTimeout := settings.requestTimeout
    requestsDelay := settings.requestsDelay }

/-- `resetTable` (mainwindow.py:271-273): clear the four result columns of
every row. -/
def resetTable (st : AppState) : AppState :=
  { st with
    table := st.table.map (fun r =>
      { r with ptype := [], anon := [], speed := [], status := [] }) }

/-- Constructor arguments of a `ScrapeProxiesWorker` (mainwindow.py:388). -/
structure ScrapeWorkerCtor where
  queue : List (List Char)
  timeout : Nat
  delay : Nat
  deriving DecidableEq

/-- Constructor arguments of a `CheckProxiesWorker` (mainwindow.py:429). -/
structure CheckWorkerCtor where
  queue : List (Nat × Proxy)
  timeout : Nat
  delay : Nat
  real_ip : List Char
  deriving DecidableEq

/-- The worker construction of `scrapeProxies` (mainwindow.py:377-389): the
sources are split across `_threadsCount` queues and every worker is built
with `timeout=TIMEOUT, delay=DELAY` — the module-level default constants,
not the configured `_requestTimeout` / `_requestsDelay` of the state. -/
def buildScrapeWorkers (sources : List (List Char)) (st : AppState) :
    List ScrapeWorkerCtor :=
  (split_list sources st.threadsCount).map
    (fun urls => ⟨urls, TIMEOUT, DELAY⟩)

/-- The inner row loop of `checkProxies` (mainwindow.py:425-427): for each
row index it unpacks `ip, port = self.modelRow(...)`, enqueues
`(row, Proxy(ip, int(port)))`, and leaves the loop variable `ip` bound to
the row's ip — shadowing whatever `ip` held before the loop.  Returns the
queue and the final value of `ip`; a port that `int()` rejects or that the
`Proxy` constructor rejects raises an uncaught `ValueError`. -/
def checkRowLoop (table : List TableRow) (curIp : List Char) :
    List Nat → Except PyError (List (Nat × Proxy) × List Char)
  | [] => .ok ([], curIp)
  | row :: rest =>
    match table.get? row with
    | none => .error .typeError
    | some r =>
      match pyInt r.port with
      | none => .error .valueError
      | some n =>
        match Proxy.make r.ip n with
        | none => .error .valueError
        | some p =>
          match checkRowLoop table r.ip rest with
          | .error e => .error e
          | .ok (q, finalIp) => .ok ((row, p) :: q, finalIp)

/-- The outer worker-construction loop of `checkProxies`
(mainwindow.py:422-438): one `CheckProxiesWorker` per partition, constructed
with the default `TIMEOUT` and `DELAY` constants and with
`real_ip = ip` (mainwindow.py:429) — the value the row loop left in `ip`,
not `self._realIP`.  On an uncaught conversion error the workers already
appended are dropped from the model; they are never started, since
mainwindow.py:439-440 is not reached. -/
def checkWorkerLoop (table : List TableRow) (curIp : List Char) :
    List (List Nat) → Except PyError (List CheckWorkerCtor)
  | [] => .ok []
  | rows :: rest =>
    match checkRowLoop table curIp rows with
    | .error e => .error e
    | .ok (q, ipAfter) =>
      match checkWorkerLoop table ipAfter rest with
      | .error e => .error e
      | .ok ws => .ok (⟨q, TIMEOUT, DELAY, ipAfter⟩ :: ws)

/-- Result triple of `get_real_ip` of `application/utils.py` (absent from
`src/`).  Modelled from the spec §4.6: `(ok, address, message)`. -/
structure ResolveResult where
  ok : Bool
  address : List Char
  message : List Char
  deriving DecidableEq

/-- `checkProxies` (mainwindow.py:400-440): final state, constructed
workers, outcome.  Before the real-address lookup the code already disables
the two start buttons, enables stop, sets the status message, clears the
four result columns of every row (`resetTable`, line 408) and zeroes the
progress bar (line 409).  When the resolver reports failure it attempts
`QtWidgets.QMessageBox.warning("Error", msg)` (line 413) — omitting the
mandatory parent widget, unlike the correct call at mainwindow.py:329 — so
the call raises `TypeError` instead of showing the dialog, and returns with
no worker constructed. -/
def checkProxies (st : AppState) (resolver : ResolveResult) :
    AppState × List CheckWorkerCtor × Outcome :=
  if st.table.length = 0 then (st, [], .ok)
  else
    let st1 := { resetTable st with
      scrapeEnabled := false
      checkEnabled := false
      stopEnabled := true
      statusMsg := "Checking proxies ...".toList
      progressBar := 0 }
    if resolver.ok = false then (st1, [], .raised .typeError)
    else
      let st2 := { st1 with
        realIP := some resolver.address
        progressTotal := st1.table.length
        progressDone := 0 }
      let queues := split_list (List.range st2.table.length) st2.threadsCount
      match checkWorkerLoop st2.table resolver.address queues with
      | .error e => (st2, [], .raised e)
      | .ok ws => (st2, ws, .ok)

/-- A one-proxy table row whose result columns carry stale values. -/
def staleRow : TableRow :=
  ⟨"1.2.3.4".toList, "8080".toList, [], [], "HTTP".toList,
    "transparent".toList, "0.5".toList, "old error".toList⟩

/-- A window state with one checkable proxy and a single worker thread. -/
def oneProxyState : AppState :=
  { initialState with table := [staleRow], threadsCount := 1 }

/-- C1 evidence: with one table row `1.2.3.4:8080` and the resolver
reporting the real address `9.9.9.9`, the single check worker is constructed
with `real_ip = "1.2.3.4"` — the last row's ip, because the row loop at
mainwindow.py:426 rebinds the name `ip` that held the resolved address —
and the resolved address reaches no worker at all. -/
theorem claim_C1_worker_gets_shadowed_ip :
    (checkProxies oneProxyState ⟨true, "9.9.9.9".toList, []⟩).2.1.map
        CheckWorkerCtor.real_ip = ["1.2.3.4".toList] ∧
    "9.9.9.9".toList ∉
      (checkProxies oneProxyState ⟨true, "9.9.9.9".toList, []⟩).2.1.map
        CheckWorkerCtor.real_ip ∧
    (checkProxies oneProxyState ⟨true, "9.9.9.9".toList, []⟩).2.2
      = Outcome.ok := by
  decide

/-- C3 evidence: when the resolver fails, no worker is constructed and the
batch stops — but the failure dialog call raises `TypeError` instead of
surfacing the message, and the state HAS already been modified: the row's
stale result columns were cleared by `resetTable` before the lookup. -/
theorem claim_C3_resolve_failure_behaviour :
    (checkProxies oneProxyState ⟨false, [], "lookup down".toList⟩).2.1
      = [] ∧
    (checkProxies oneProxyState ⟨false, [], "lookup down".toList⟩).2.2
      = Outcome.raised PyError.typeError ∧
    (checkProxies oneProxyState ⟨false, [], "lookup down".toList⟩).1
      ≠ oneProxyState ∧
    (checkProxies oneProxyState ⟨false, [], "lookup down".toList⟩).1.table.map
        TableRow.status = [[]] := by
  decide

/-- Settings whose timeout and delay differ from the module defaults. -/
def customSettings : StoredSettings := ⟨2, TIMEOUT + 7, DELAY + 5⟩

/-- C8 evidence: after `loadSettings` stores a configured timeout and delay
differing from the defaults, both the scrape workers (mainwindow.py:388) and
the check workers (mainwindow.py:429) are still constructed with the module
constants `TIMEOUT` and `DELAY`; the configured `_requestTimeout` and
`_requestsDelay` reach no worker. -/
theorem claim_C8_workers_ignore_configured_settings :
    (loadSettings oneProxyState customSettings).requestTimeout
      = TIMEOUT + 7 ∧
    (loadSettings oneProxyState customSettings).requestsDelay = DELAY + 5 ∧
    (∀ w ∈ buildScrapeWorkers ["http://a".toList, "http://b".toList]
        (loadSettings oneProxyState customSettings),
      w.timeout = TIMEOUT ∧ w.delay = DELAY) ∧
    (checkProxies (loadSettings oneProxyState customSettings)
        ⟨true, "9.9.9.9".toList, []⟩).2.1 ≠ [] ∧
    ∀ w ∈ (checkProxies (loadSettings oneProxyState customSettings)
        ⟨true, "9.9.9.9".toList, []⟩).2.1,
      w.timeout = TIMEOUT ∧ w.delay = DELAY := by
  decide

/-- Number of parameters of `setModelRow` after `self`:
`(model, row, columns, values)` (mainwindow.py:191), none with a default. -/
def setModelRowParamCount : Nat := 4

/-- Number of arguments passed to `setModelRow` at the `importProxies` call
site (mainwindow.py:304): `(self.proxiesModel, ("ip", "port"),
(proxy.ip, proxy.port))` — three arguments. -/
def importProxiesCallArgCount : Nat := 3

/-- CPython positional-argument binding for a plain method without default
values or varargs: an argument count different from the parameter count
raises `TypeError` before the body runs. -/
def pyBindArgs (paramCount argCount : Nat) : Option PyError :=
  if argCount = paramCount then none else some .typeError

/-- `updateRecentFiles` (mainwindow.py:253-257): insert the path at the
front when absent, then `pop()` the last entry if the list exceeds the
bound. -/
def updateRecentFiles (recent : List (List Char)) (fp : List Char) :
    List (List Char) :=
  let r := if fp ∈ recent then recent else fp :: recent
  if MAX_RECENT_FILES < r.length then r.dropLast else r

/-- `importProxies` (mainwindow.py:292-304).  The file dialog is external;
the function receives the chosen path and the file's lines.  When the load
added proxies (truthy return of `loadProxiesFromFile`), the code
updates `_currentDir` (modelled as the path itself — `QFileInfo` directory
extraction is external) and the recent files, then iterates the set calling
`setModelRow` with three arguments for a four-parameter method: CPython
raises `TypeError` while binding the first iteration's call, before any
table write, so the no-error continuation is unreachable and the table is
returned untouched.  An abort inside `loadProxiesFromFile` also propagates
out of `importProxies`. -/
def importProxies (st : AppState) (filePath : List Char)
    (lines : List (List Char)) : AppState × Outcome :=
  let r := loadProxiesFromFile ':' st.proxies lines
  let st1 := { st with proxies := r.proxies }
  match r.error with
  | some e => (st1, .raised e)
  | none =>
    if r.added = 0 then (st1, .ok)
    else
      let st2 := { st1 with
        currentDir := filePath
        recentFiles := updateRecentFiles st1.recentFiles filePath }
      match pyBindArgs setModelRowParamCount importProxiesCallArgCount with
      | some e => (st2, .raised e)
      | none => (st2, .ok)

/-- C10: whenever `loadProxiesFromFile` returns a non-empty proxy set (no
abort and at least one proxy added), `importProxies` raises `TypeError` at
the three-argument `setModelRow` call and the table is never updated. -/
theorem claim_C10_import_raises_before_table_update (st : AppState)
    (fp : List Char) (lines : List (List Char))
    (herr : (loadProxiesFromFile ':' st.proxies lines).error = none)
    (hadd : 0 < (loadProxiesFromFile ':' st.proxies lines).added) :
    (importProxies st fp lines).2 = Outcome.raised PyError.typeError ∧
    (importProxies st fp lines).1.table = st.table := by
  have hne : ¬ (loadProxiesFromFile ':' st.proxies lines).added = 0 := by
    omega
  simp only [importProxies, herr, hne, if_false, pyBindArgs,
    setModelRowParamCount, importProxiesCallArgCount]
  exact ⟨rfl, rfl⟩

/-- Witness for C10: importing a file holding the single well-formed line
`5.5.5.5:80` into the initial state. -/
theorem claim_C10_import_raises_before_table_update_witness :
    ((loadProxiesFromFile ':' initialState.proxies
        ["5.5.5.5:80".toList]).error = none ∧
      0 < (loadProxiesFromFile ':' initialState.proxies
        ["5.5.5.5:80".toList]).added) ∧
    ((importProxies initialState "proxies.txt".toList
        ["5.5.5.5:80".toList]).2 = Outcome.raised PyError.typeError ∧
      (importProxies initialState "proxies.txt".toList
        ["5.5.5.5:80".toList]).1.table = initialState.table) :=
  ⟨⟨by decide, by decide⟩,
    claim_C10_import_raises_before_table_update initialState
      "proxies.txt".toList ["5.5.5.5:80".toList] (by decide) (by decide)⟩

/-- Qt signals appearing in the worker wiring (mainwindow.py:390-397 and
431-438). -/
inductive QtSignal where
  | threadStarted
  | threadFinished
  | workerStatus
  | workerResult
  | workerFinished
  deriving DecidableEq

/-- The slots those signals are connected to. -/
inductive QtSlot where
  | workerStart
  | threadQuit
  | threadDeleteLater
  | workerDeleteLater
  | onStatus
  | onResult
  | onFinished
  deriving DecidableEq

/-- The per-worker connections made by `scrapeProxies`
(mainwindow.py:390-396): no slot of the main window is connected to the
worker's finished signal — in particular not `onFinished`. -/
def scrapeWorkerConnections : List (QtSignal × QtSlot) :=
  [(.threadStarted, .workerStart),
   (.threadFinished, .threadDeleteLater),
   (.workerStatus, .onStatus),
   (.workerResult, .onResult),
   (.workerFinished, .threadQuit),
   (.workerFinished, .workerDeleteLater)]

/-- The per-worker connections made by `checkProxies`
(mainwindow.py:431-438): `onFinished`, the only completion handler of the
window, is connected to EVERY worker's finished signal (line 438). -/
def checkWorkerConnections : List (QtSignal × QtSlot) :=
  [(.threadStarted, .workerStart),
   (.threadFinished, .threadDeleteLater),
   (.workerStatus, .onStatus),
   (.workerResult, .onResult),
   (.workerFinished, .threadQuit),
   (.workerFinished, .workerDeleteLater),
   (.workerFinished, .onFinished)]

/-- The slots invoked when `sig` is emitted, given a worker's connection
list: Qt runs every connected slot once per emission. -/
def slotsFiredByEvent (conns : List (QtSignal × QtSlot)) (sig : QtSignal) :
    List QtSlot :=
  (conns.filter (fun c => c.1 == sig)).map Prod.snd

/-- All slot invocations of a batch whose workers emitted `events`
(in any interleaving), each worker wired with `conns`. -/
def batchSlotFires (conns : List (QtSignal × QtSlot))
    (events : List QtSignal) : List QtSlot :=
  events.flatMap (slotsFiredByEvent conns)

/-- Number of invocations of the completion handler `onFinished` during a
batch whose workers emitted `events`. -/
def onFinishedInvocations (conns : List (QtSignal × QtSlot))
    (events : List QtSignal) : Nat :=
  (batchSlotFires conns events).count .onFinished

theorem slotsFired_check_onFinished (sig : QtSignal) :
    (slotsFiredByEvent checkWorkerConnections sig).count QtSlot.onFinished
      = if sig = .workerFinished then 1 else 0 := by
  cases sig <;> decide

theorem slotsFired_scrape_onFinished (sig : QtSignal) :
    (slotsFiredByEvent scrapeWorkerConnections sig).count QtSlot.onFinished
      = 0 := by
  cases sig <;> decide

/-- C4 counterexample: in a check batch with two workers the completion
handler is invoked twice — once per worker-finished signal, the first time
before the second worker has finished — and in a scrape batch it is invoked
zero times; in neither mode is it exactly one per batch. -/
theorem claim_C4_counterexample :
    onFinishedInvocations checkWorkerConnections
        [.workerFinished, .workerFinished] = 2 ∧
    onFinishedInvocations checkWorkerConnections
        [.workerFinished, .workerFinished] ≠ 1 ∧
    onFinishedInvocations scrapeWorkerConnections [.workerFinished] = 0 ∧
    onFinishedInvocations scrapeWorkerConnections [.workerFinished] ≠ 1 := by
  decide

/-- C4 as amended: during any batch the completion handler `onFinished`
runs exactly as many times as worker-finished signals were emitted in check
mode — once per worker, not once per batch — and zero times in scrape mode,
where it is never connected. -/
theorem claim_C4_amended_per_worker_completion (events : List QtSignal)
    (n : Nat) (h : events.count .workerFinished = n) :
    onFinishedInvocations checkWorkerConnections events = n ∧
    onFinishedInvocations scrapeWorkerConnections events = 0 := by
  subst h
  induction events with
  | nil => exact ⟨rfl, rfl⟩
  | cons e es ih =>
    obtain ⟨ih1, ih2⟩ := ih
    have hc : onFinishedInvocations checkWorkerConnections (e :: es)
        = (slotsFiredByEvent checkWorkerConnections e).count .onFinished
          + onFinishedInvocations checkWorkerConnections es := by
      show (slotsFiredByEvent checkWorkerConnections e
          ++ batchSlotFires checkWorkerConnections es).count .onFinished = _
      rw [List.count_append]
      rfl
    have hs : onFinishedInvocations scrapeWorkerConnections (e :: es)
        = (slotsFiredByEvent scrapeWorkerConnections e).count .onFinished
          + onFinishedInvocations scrapeWorkerConnections es := by
      show (slotsFiredByEvent scrapeWorkerConnections e
          ++ batchSlotFires scrapeWorkerConnections es).count .onFinished = _
      rw [List.count_append]
      rfl
    refine ⟨?_, ?_⟩
    · rw [hc, ih1, slotsFired_check_onFinished, List.count_cons]
      by_cases he : e = QtSignal.workerFinished
      · simp [he, Nat.add_comm]
      · simp [he]
    · rw [hs, ih2, slotsFired_scrape_onFinished]

/-- Witness for the amended C4: two finished signals interleaved with a
result signal. -/
theorem claim_C4_amended_per_worker_completion_witness :
    List.count QtSignal.workerFinished
        [QtSignal.workerFinished, QtSignal.workerResult,
          QtSignal.workerFinished] = 2 ∧
    (onFinishedInvocations checkWorkerConnections
        [QtSignal.workerFinished, QtSignal.workerResult,
          QtSignal.workerFinished] = 2 ∧
      onFinishedInvocations scrapeWorkerConnections
        [QtSignal.workerFinished, QtSignal.workerResult,
          QtSignal.workerFinished] = 0) :=
  ⟨by decide,
    claim_C4_amended_per_worker_completion
      [QtSignal.workerFinished, QtSignal.workerResult,
        QtSignal.workerFinished] 2 (by decide)⟩

theorem pyStrSplit_ne_nil (d : Char) (l : List Char) :
    pyStrSplit d l ≠ [] := by
  cases l with
  | nil => simp [pyStrSplit]
  | cons c cs =>
    by_cases hc : c = d
    · simp [pyStrSplit, hc]
    · simp only [pyStrSplit, if_neg hc]
      cases pyStrSplit d cs <;> simp

/-- Interleave the delimiter between the parts: the inverse of the split. -/
def joinSep (d : Char) : List (List Char) → List Char
  | [] => []
  | [a] => a
  | a :: rest => a ++ d :: joinSep d rest

theorem pyStrSplit_spec (d : Char) (l : List Char) :
    joinSep d (pyStrSplit d l) = l ∧ ∀ part ∈ pyStrSplit d l, d ∉ part := by
  induction l with
  | nil =>
    refine ⟨rfl, ?_⟩
    intro part hp
    simp only [pyStrSplit, List.mem_singleton] at hp
    subst hp
    simp
  | cons c cs ih =>
    obtain ⟨ihj, ihm⟩ := ih
    obtain ⟨t, ts, hts⟩ : ∃ t ts, pyStrSplit d cs = t :: ts := by
      cases h : pyStrSplit d cs with
      | nil => exact absurd h (pyStrSplit_ne_nil d cs)
      | cons t ts => exact ⟨t, ts, rfl⟩
    rw [hts] at ihj ihm
    by_cases hc : c = d
    · have hstep : pyStrSplit d (c :: cs) = [] :: t :: ts := by
        rw [pyStrSplit, if_pos hc, hts]
      rw [hstep]
      subst hc
      refine ⟨?_, ?_⟩
      · show [] ++ c :: joinSep c (t :: ts) = c :: cs
        rw [ihj]
        rfl
      · intro part hp
        rcases List.mem_cons.mp hp with rfl | hp'
        · simp
        · exact ihm part hp'
    · have hstep : pyStrSplit d (c :: cs) = (c :: t) :: ts := by
        rw [pyStrSplit, if_neg hc, hts]
      rw [hstep]
      refine ⟨?_, ?_⟩
      · cases ts with
        | nil =>
          show c :: t = c :: cs
          rw [show t = cs from ihj]
        | cons u us =>
          show (c :: t) ++ d :: joinSep d (u :: us) = c :: cs
          have : t ++ d :: joinSep d (u :: us) = cs := ihj
          rw [List.cons_append, this]
      · intro part hp
        rcases List.mem_cons.mp hp with rfl | hp'
        · intro hd
          rcases List.mem_cons.mp hd with rfl | hd'
          · exact hc rfl
          · exact ihm t (List.mem_cons_self t ts) hd'
        · exact ihm part (List.mem_cons_of_mem t hp')

theorem pyStrSplit_pair {d : Char} {l a b : List Char}
    (h : pyStrSplit d l = [a, b]) :
    l = a ++ d :: b ∧ d ∉ a ∧ d ∉ b := by
  obtain ⟨hj, hm⟩ := pyStrSplit_spec d l
  rw [h] at hj hm
  refine ⟨?_, hm a (by simp), hm b (by simp)⟩
  rw [← hj]
  rfl

theorem pyStrSplit_append_cons {d : Char} {a : List Char} (b : List Char)
    (ha : d ∉ a) :
    pyStrSplit d (a ++ d :: b) = a :: pyStrSplit d b := by
  induction a with
  | nil => simp [pyStrSplit]
  | cons c a' ih =>
    have hc : ¬ c = d := fun h => ha (h ▸ List.mem_cons_self c a')
    have ha' : d ∉ a' := fun h => ha (List.mem_cons_of_mem c h)
    rw [List.cons_append, pyStrSplit, if_neg hc, ih ha']

theorem pyStrSplit_no_delim {d : Char} {b : List Char} (hb : d ∉ b) :
    pyStrSplit d b = [b] := by
  induction b with
  | nil => rfl
  | cons c b' ih =>
    have hc : ¬ c = d := fun h => hb (h ▸ List.mem_cons_self c b')
    have hb' : d ∉ b' := fun h => hb (List.mem_cons_of_mem c h)
    rw [pyStrSplit, if_neg hc, ih hb']

theorem dropWhile_eq_self_of_head {α : Type u} {p : α → Bool} {l : List α}
    (h : ∀ c, l.head? = some c → p c = false) :
    l.dropWhile p = l := by
  cases l with
  | nil => rfl
  | cons c cs =>
    rw [List.dropWhile_cons, if_neg]
    rw [h c rfl]
    simp

theorem head?_dropWhile_false {α : Type u} {p : α → Bool} {l : List α}
    {c : α} (h : (l.dropWhile p).head? = some c) : p c = false := by
  induction l with
  | nil => cases h
  | cons a l ih =>
    rw [List.dropWhile_cons] at h
    by_cases hp : p a = true
    · rw [if_pos hp] at h
      exact ih h
    · rw [if_neg hp] at h
      cases h
      simpa using hp

theorem getLast?_of_suffix {α : Type u} {u v : List α} {c : α}
    (hs : u <:+ v) (h : u.getLast? = some c) : v.getLast? = some c := by
  obtain ⟨t, rfl⟩ := hs
  rw [List.getLast?_append, h]
  rfl

theorem pyStrStrip_head_not_ws {x : List Char} {c : Char}
    (h : (pyStrStrip x).head? = some c) : c.isWhitespace = false := by
  rw [pyStrStrip, List.head?_reverse] at h
  have h2 : ((x.dropWhile Char.isWhitespace).reverse).getLast? = some c :=
    getLast?_of_suffix (List.dropWhile_suffix _) h
  rw [List.getLast?_reverse] at h2
  exact head?_dropWhile_false h2

theorem pyStrStrip_getLast_not_ws {x : List Char} {c : Char}
    (h : (pyStrStrip x).getLast? = some c) : c.isWhitespace = false := by
  rw [pyStrStrip, List.getLast?_reverse] at h
  exact head?_dropWhile_false h

theorem pyStrStrip_eq_self {l : List Char}
    (h1 : ∀ c, l.head? = some c → c.isWhitespace = false)
    (h2 : ∀ c, l.getLast? = some c → c.isWhitespace = false) :
    pyStrStrip l = l := by
  rw [pyStrStrip, dropWhile_eq_self_of_head h1,
    dropWhile_eq_self_of_head (fun c hc => by
      rw [List.head?_reverse] at hc
      exact h2 c hc),
    List.reverse_reverse]

theorem digitChar_isDigit {k : Nat} (h : k < 10) :
    (digitChar k).isDigit = true := by
  interval_cases k <;> decide

theorem digitChar_toNat {k : Nat} (h : k < 10) :
    (digitChar k).toNat = 48 + k := by
  interval_cases k <;> rfl

theorem digit_not_ws {c : Char} (h : c.isDigit = true) :
    c.isWhitespace = false := by
  simp only [Char.isDigit, ge_iff_le, Bool.and_eq_true, decide_eq_true_eq]
    at h
  simp only [Char.isWhitespace, Bool.or_eq_false_iff,
    decide_eq_false_iff_not]
  refine ⟨⟨⟨?_, ?_⟩, ?_⟩, ?_⟩ <;> rintro rfl <;> revert h <;> decide

theorem digit_ne_colon {c : Char} (h : c.isDigit = true) : c ≠ ':' := by
  rintro rfl
  revert h
  decide

theorem digit_ne_minus {c : Char} (h : c.isDigit = true) : c ≠ '-' := by
  rintro rfl
  revert h
  decide

theorem digit_ne_plus {c : Char} (h : c.isDigit = true) : c ≠ '+' := by
  rintro rfl
  revert h
  decide

theorem natToCharsAux_spec (fuel : Nat) :
    ∀ n : Nat, n < 10 ^ (fuel + 1) →
      (∀ c ∈ natToCharsAux (fuel + 1) n, c.isDigit = true) ∧
      natToCharsAux (fuel + 1) n ≠ [] ∧
      (natToCharsAux (fuel + 1) n).foldl
        (fun a c => 10 * a + (c.toNat - 48)) 0 = n := by
  induction fuel with
  | zero =>
    intro n hn
    rw [pow_one] at hn
    refine ⟨?_, ?_, ?_⟩
    · intro c hc
      rw [natToCharsAux, if_pos hn] at hc
      rw [List.mem_singleton] at hc
      subst hc
      exact digitChar_isDigit hn
    · rw [natToCharsAux, if_pos hn]
      simp
    · rw [natToCharsAux, if_pos hn]
      show 10 * 0 + ((digitChar n).toNat - 48) = n
      rw [digitChar_toNat hn]
      omega
  | succ fuel ih =>
    intro n hn
    by_cases hsmall : n < 10
    · refine ⟨?_, ?_, ?_⟩
      · intro c hc
        rw [natToCharsAux, if_pos hsmall] at hc
        rw [List.mem_singleton] at hc
        subst hc
        exact digitChar_isDigit hsmall
      · rw [natToCharsAux, if_pos hsmall]
        simp
      · rw [natToCharsAux, if_pos hsmall]
        show 10 * 0 + ((digitChar n).toNat - 48) = n
        rw [digitChar_toNat hsmall]
        omega
    · have hdiv : n / 10 < 10 ^ (fuel + 1) := by
        rw [Nat.div_lt_iff_lt_mul (by norm_num)]
        calc n < 10 ^ (fuel + 1 + 1) := hn
        _ = 10 ^ (fuel + 1) * 10 := by rw [pow_succ]
      obtain ⟨ihd, ihne, ihval⟩ := ih (n / 10) hdiv
      have hmod : n % 10 < 10 := Nat.mod_lt _ (by norm_num)
      have hstep : natToCharsAux (fuel + 1 + 1) n
          = natToCharsAux (fuel + 1) (n / 10) ++ [digitChar (n % 10)] := by
        rw [natToCharsAux, if_neg hsmall]
      refine ⟨?_, ?_, ?_⟩
      · intro c hc
        rw [hstep, List.mem_append] at hc
        rcases hc with hc | hc
        · exact ihd c hc
        · rw [List.mem_singleton] at hc
          subst hc
          exact digitChar_isDigit hmod
      · rw [hstep]
        simp
      · rw [hstep, List.foldl_append, ihval]
        show 10 * (n / 10) + ((digitChar (n % 10)).toNat - 48) = n
        rw [digitChar_toNat hmod]
        omega

theorem natToChars_spec (n : Nat) :
    (∀ c ∈ natToChars n, c.isDigit = true) ∧ natToChars n ≠ [] ∧
    digitsToNat (natToChars n) = some n := by
  have hlt : n < 10 ^ (n + 1) :=
    lt_of_lt_of_le (Nat.lt_pow_self (by norm_num) n)
      (Nat.pow_le_pow_right (by norm_num) (Nat.le_succ n))
  obtain ⟨h1, h2, h3⟩ := natToCharsAux_spec n n hlt
  refine ⟨h1, h2, ?_⟩
  have hne : natToChars n ≠ [] := h2
  have hall : (natToChars n).all Char.isDigit = true := List.all_eq_true.mpr h1
  rw [digitsToNat, if_neg hne, if_pos hall]
  exact congrArg some h3

theorem pyStrStrip_digits {l : List Char}
    (hdig : ∀ c ∈ l, c.isDigit = true) : pyStrStrip l = l := by
  refine pyStrStrip_eq_self (fun c hc => ?_) (fun c hc => ?_)
  · exact digit_not_ws (hdig c (List.mem_of_mem_head? (by rw [hc]; rfl)))
  · exact digit_not_ws (hdig c (List.mem_of_mem_getLast? (by rw [hc]; rfl)))

theorem pyInt_natToChars (m : Nat) : pyInt (natToChars m) = some (m : Int)
    := by
  obtain ⟨hdig, hne, hval⟩ := natToChars_spec m
  have hstrip : pyStrStrip (natToChars m) = natToChars m :=
    pyStrStrip_digits hdig
  obtain ⟨c, rest, hcr⟩ : ∃ c rest, natToChars m = c :: rest := by
    cases h : natToChars m with
    | nil => exact absurd h hne
    | cons c rest => exact ⟨c, rest, rfl⟩
  have hc : c.isDigit = true := hdig c (hcr ▸ List.mem_cons_self c rest)
  have hm : ¬ c = '-' := digit_ne_minus hc
  have hp : ¬ c = '+' := digit_ne_plus hc
  rw [pyInt, hstrip, hcr]
  simp only [hm, hp, if_false, ite_false]
  rw [← hcr, hval]
  rfl

theorem parseLine_ok_elim {d : Char} {line : List Char} {p : Proxy}
    (h : parseLine d line = some p) :
    ∃ ip0 port0 n0, pyStrSplit d (pyStrStrip line) = [ip0, port0] ∧
      pyInt port0 = some n0 ∧ Proxy.make ip0 n0 = some p := by
  rw [parseLine] at h
  rcases hpr : parseLineResult d line with q | _ | _ <;> rw [hpr] at h
  case skipped => cases h
  case aborted => cases h
  case ok =>
    have hq : q = p := Option.some.inj h
    subst hq
    rw [parseLineResult] at hpr
    rcases hs : pyStrSplit d (pyStrStrip line)
        with _ | ⟨a, _ | ⟨b, _ | ⟨x, xs⟩⟩⟩ <;> rw [hs] at hpr
    · cases hpr
    · cases hpr
    · have hpr2 : (match pyInt b with
          | none => LineResult.skipped
          | some n =>
            match Proxy.make a n with
            | none => LineResult.skipped
            | some p => LineResult.ok p) = LineResult.ok q := hpr
      rcases hint : pyInt b with _ | n0 <;> rw [hint] at hpr2
      · simp at hpr2
      · have hpr3 : (match Proxy.make a n0 with
            | none => LineResult.skipped
            | some p => LineResult.ok p) = LineResult.ok q := hpr2
        rcases hmk : Proxy.make a n0 with _ | q' <;> rw [hmk] at hpr3
        · simp at hpr3
        · have hq' : q' = q := by
            have hinj : LineResult.ok q' = LineResult.ok q := hpr3
            injection hinj
          subst hq'
          exact ⟨a, b, n0, rfl, hint, hmk⟩
    · cases hpr

theorem parseLine_build {d : Char} {l ip0 port0 : List Char} {n0 : Int}
    {p : Proxy}
    (hsp : pyStrSplit d (pyStrStrip l) = [ip0, port0])
    (hint : pyInt port0 = some n0)
    (hmk : Proxy.make ip0 n0 = some p) :
    parseLine d l = some p := by
  rw [parseLine, parseLineResult, hsp]
  simp only [hint, hmk]

/-- C9: for every line that parses to a proxy, rendering the proxy with the
export format and parsing the result again yields the very same
`(host, port)` pair — parse, then format, then parse is a no-op. -/
theorem claim_C9_parse_format_roundtrip (line : List Char) (p : Proxy)
    (h : parseLine ':' line = some p) :
    parseLine ':' (formatProxy p) = some p := by
  obtain ⟨ip0, port0, n0, hsp, hint, hmk⟩ := parseLine_ok_elim h
  obtain ⟨hjoin, hipnc, hptnc⟩ := pyStrSplit_pair hsp
  have hrange : 1 ≤ n0 ∧ n0 ≤ 65535 := by
    by_contra hcon
    rw [Proxy.make, if_neg hcon] at hmk
    cases hmk
  have hpeq : p = ⟨ip0, n0.toNat⟩ := by
    rw [Proxy.make, if_pos hrange] at hmk
    exact (Option.some.inj hmk).symm
  obtain ⟨hdig, hdne, hdval⟩ := natToChars_spec p.port
  have hdnc : ':' ∉ natToChars p.port := fun hmem =>
    digit_ne_colon (hdig _ hmem) rfl
  have hn0nonneg : (0 : Int) ≤ n0 := by
    have := hrange.1
    omega
  have hcast : ((p.port : Nat) : Int) = n0 := by
    rw [hpeq]
    exact Int.toNat_of_nonneg hn0nonneg
  have hfmt : formatProxy p = ip0 ++ ':' :: natToChars p.port := by
    rw [formatProxy, hpeq]
  have hhead : ∀ c, (ip0 ++ ':' :: natToChars p.port).head? = some c →
      c.isWhitespace = false := by
    intro c hc
    cases ip0 with
    | nil =>
      rw [List.nil_append, List.head?_cons] at hc
      cases hc
      decide
    | cons c0 ip0' =>
      rw [List.cons_append, List.head?_cons] at hc
      injection hc with hc
      subst hc
      refine pyStrStrip_head_not_ws (x := line) ?_
      rw [hjoin]
      rfl
  have hlast : ∀ c, (ip0 ++ ':' :: natToChars p.port).getLast? = some c →
      c.isWhitespace = false := by
    intro c hc
    have h1 : (ip0 ++ ':' :: natToChars p.port).getLast?
        = (natToChars p.port).getLast? := by
      rw [show ip0 ++ ':' :: natToChars p.port
          = (ip0 ++ [':']) ++ natToChars p.port by simp,
        List.getLast?_append, List.getLast?_eq_getLast _ hdne]
      rfl
    rw [h1] at hc
    exact digit_not_ws (hdig c (List.mem_of_mem_getLast? (by rw [hc]; rfl)))
  have hstrip2 : pyStrStrip (ip0 ++ ':' :: natToChars p.port)
      = ip0 ++ ':' :: natToChars p.port := pyStrStrip_eq_self hhead hlast
  have hsp2 : pyStrSplit ':' (pyStrStrip (formatProxy p))
      = [ip0, natToChars p.port] := by
    rw [hfmt, hstrip2, pyStrSplit_append_cons (natToChars p.port) hipnc,
      pyStrSplit_no_delim hdnc]
  have hint2 : pyInt (natToChars p.port) = some n0 := by
    rw [pyInt_natToChars, hcast]
  exact parseLine_build hsp2 hint2 hmk

/-- Witness for C9 at a line with surrounding whitespace and a leading zero
in the port, which the round trip normalises away while keeping the same
`(host, port)` pair. -/
theorem claim_C9_parse_format_roundtrip_witness :
    parseLine ':' " 1.2.3.4:0080 ".toList
        = some ⟨"1.2.3.4".toList, 80⟩ ∧
    parseLine ':' (formatProxy ⟨"1.2.3.4".toList, 80⟩)
        = some ⟨"1.2.3.4".toList, 80⟩ :=
  ⟨by decide,
    claim_C9_parse_format_roundtrip " 1.2.3.4:0080 ".toList
      ⟨"1.2.3.4".toList, 80⟩ (by decide)⟩

end ProxyHarvester
